import Mathlib

/-!
# A verification of `scripts/generate-catalog.js`

This file is a shallow embedding of the catalog generator: a one-shot
script that scans `tools/<category>/<tool>/` directories for
`metadata.json` descriptor files, validates each tool, and aggregates the
valid ones into a single catalog document.

Modelling conventions:

* Filesystem paths are lists of segments (`FsPath`).  `path.join(d, n)` is
  `d ++ [n]`, `path.dirname` is `List.dropLast`, `path.basename` is the
  last segment.
* The filesystem is a finite tree (`FSEntry`).  Directory entry lists model
  the output of `fs.readdirSync`, in listing order.  Entry names inside one
  directory are unique on any real filesystem; on such trees resolving an
  entry by name coincides with the positional entry.
* File contents are modelled at the granularity the script reads them:
  a file either parses (`JSON.parse`) to a descriptor object with the three
  optional string fields the script touches, or it does not.
* JavaScript property access on plain objects is modelled as own-property
  lookup; keys colliding with `Object.prototype` members are outside the
  model.
* Fallible calls (`fs.readFileSync`, `fs.readdirSync`, `JSON.parse`,
  `extractSoftwareType`) return `Except`; a `try { } catch` is a `match` on
  the resulting value.
* The `git log` timestamp query is an oracle `GitOracle`; `new Date()` at
  generation time is the parameter `now`.
* `String.prototype.localeCompare` is an oracle `lc : String → String →
  Int`; ECMA-402 only guarantees it is a consistent comparison, so theorems
  about sorting take totality/transitivity of `fun a b => lc a b ≤ 0` as
  hypotheses.  `Array.prototype.sort` is stable (ES2019), and for a
  consistent comparator every stable sort returns the same list, so it is
  modelled by `List.insertionSort` (which is stable).
-/

/-- A filesystem path, as its list of segments. -/
abbrev FsPath := List String

/-- The parsed content of a `metadata.json` descriptor: the three optional
string fields the script reads.  `none` models an absent field. -/
structure Metadata where
  name : Option String
  description : Option String
  id : Option String
deriving DecidableEq, Repr

/-- Content of a regular file, at the granularity the script observes it:
either it parses as a descriptor object, or `JSON.parse` fails on it. -/
inductive FileData where
  | meta (m : Metadata)
  | invalidJson
deriving DecidableEq, Repr

mutual
/-- A filesystem tree: a regular file with content, or a directory with an
ordered entry list (the order `fs.readdirSync` reports). -/
inductive FSEntry where
  | file (data : FileData)
  | dir (entries : FSEntries)

/-- An ordered directory entry list: name/entry pairs.  (A separate
inductive rather than a nested `List` so that recursion over the tree is
structural.) -/
inductive FSEntries where
  | nil
  | cons (name : String) (entry : FSEntry) (rest : FSEntries)
end

/-- The entry list as a `List` of name/entry pairs. -/
def FSEntries.toList : FSEntries → List (String × FSEntry)
  | .nil => []
  | .cons n e rest => (n, e) :: rest.toList

/-- Build an entry list from a `List` of name/entry pairs. -/
def FSEntries.ofList : List (String × FSEntry) → FSEntries
  | [] => .nil
  | (n, e) :: rest => .cons n e (FSEntries.ofList rest)

/-- A directory built from a list of name/entry pairs. -/
def dirOf (entries : List (String × FSEntry)) : FSEntry :=
  .dir (FSEntries.ofList entries)

/-- Resolve one name inside a directory entry list (first occurrence). -/
def lookupEntry : FSEntries → String → Option FSEntry
  | .nil, _ => none
  | .cons n e rest, name => if n = name then some e else lookupEntry rest name

/-- Resolve a path in the tree, segment by segment. -/
def FSEntry.lookup : FSEntry → FsPath → Option FSEntry
  | e, [] => some e
  | .file _, _ :: _ => none
  | .dir es, n :: rest =>
    match lookupEntry es n with
    | some e => e.lookup rest
    | none => none

/-- `fs.existsSync(p)`: true if any entry (file or directory) is at `p`. -/
def existsSync (fs : FSEntry) (p : FsPath) : Bool :=
  (fs.lookup p).isSome

/-- `fs.statSync(p).isFile()` seen as a pure check: `p` resolves to a
regular file.  (Used where the script stats entries it just listed, so the
stat itself cannot throw.) -/
def isRegularFile (fs : FSEntry) (p : FsPath) : Bool :=
  match fs.lookup p with
  | some (.file _) => true
  | _ => false

/-- `fs.readdirSync(p)`: the entry names of the directory at `p`, in
listing order; throws (`Except.error`) if `p` is missing or not a
directory. -/
def readdirSync (fs : FSEntry) (p : FsPath) : Except String (List String) :=
  match fs.lookup p with
  | some (.dir es) => .ok (es.toList.map Prod.fst)
  | some (.file _) => .error "ENOTDIR"
  | none => .error "ENOENT"

/-- `fs.readFileSync(p)`: the content of the regular file at `p`; throws if
`p` is missing or a directory. -/
def readFileSync (fs : FSEntry) (p : FsPath) : Except String FileData :=
  match fs.lookup p with
  | some (.file d) => .ok d
  | some (.dir _) => .error "EISDIR"
  | none => .error "ENOENT"

/-- `JSON.parse` applied to a descriptor file's content. -/
def jsonParse : FileData → Except String Metadata
  | .meta m => .ok m
  | .invalidJson => .error "Unexpected token in JSON"

/-- JavaScript truthiness of a possibly-absent string field:
`undefined` and the empty string are falsy. -/
def jsTruthy (x : Option String) : Bool :=
  match x with
  | some s => s != ""
  | none => false

/-- JavaScript `x || fallback` for a possibly-absent string field `x`. -/
def jsOrElse (x : Option String) (fallback : String) : String :=
  match x with
  | some s => if s = "" then fallback else s
  | none => fallback

/-- `SOFTWARE_CONFIG`: the extension table at the top of the script. -/
def SOFTWARE_CONFIG : List (String × String) :=
  [("blender", "py"), ("sketchup", "rb"), ("rhino", "py"), ("revit", "py")]

/-- `getMainFileName(softwareType)`: `tool.<extension>` for a known
software type, the default `tool.py` (with a console warning) otherwise. -/
def getMainFileName (softwareType : String) : String :=
  match List.lookup softwareType SOFTWARE_CONFIG with
  | none => "tool.py"
  | some ext => "tool." ++ ext

/-- `extractSoftwareType(metadataPath)`: the path segment immediately after
the first `tools` segment.  `Array.prototype.indexOf` returns `-1` when the
element is absent and the script tests `toolsIndex === -1 || toolsIndex + 1
>= pathParts.length`; `List.indexOf` returns the length when absent, which
the single test `toolsIndex + 1 ≥ length` also rejects. -/
def extractSoftwareType (metadataPath : FsPath) : Except String String :=
  let pathParts := metadataPath
  let toolsIndex := pathParts.indexOf "tools"
  if toolsIndex + 1 ≥ pathParts.length then
    .error "Invalid tool path structure"
  else
    .ok (pathParts.getD (toolsIndex + 1) "")

/-- `extractToolName(metadataPath)`: `path.basename(path.dirname(p))`. -/
def extractToolName (metadataPath : FsPath) : String :=
  metadataPath.dropLast.getLastD ""

/-- `verifyMainToolFile(metadataPath, softwareType)`: the main tool file
exists (as any entry — the script uses `fs.existsSync`) directly inside the
tool's directory. -/
def verifyMainToolFile (fs : FSEntry) (metadataPath : FsPath) (softwareType : String) : Bool :=
  let toolDir := metadataPath.dropLast
  let mainFilePath := toolDir ++ [getMainFileName softwareType]
  existsSync fs mainFilePath

/-- `findDependencies(metadataPath, softwareType)`: every entry of the tool
directory, in listing order, that is neither the descriptor file nor the
main file name and stats as a regular file. -/
def findDependencies (fs : FSEntry) (metadataPath : FsPath) (softwareType : String) :
    Except String (List String) :=
  let toolDir := metadataPath.dropLast
  let mainFileName := getMainFileName softwareType
  match readdirSync fs toolDir with
  | .error e => .error e
  | .ok entries =>
    .ok (entries.filter (fun entry =>
      if entry = "metadata.json" ∨ entry = mainFileName then false
      else isRegularFile fs (toolDir ++ [entry])))

/-- Result of the external `git log -1 --format=%aI -- <path>` call:
either the command's stdout, or the command threw. -/
inductive GitResult where
  | output (stdout : String)
  | failure (message : String)
deriving DecidableEq, Repr

/-- The version-control timestamp oracle, indexed by directory path. -/
abbrev GitOracle := FsPath → GitResult

/-- `result.trim()`: strip leading and trailing whitespace (the relevant
whitespace in `git log` output is the trailing newline). -/
def trimString (s : String) : String :=
  ⟨((s.data.dropWhile Char.isWhitespace).reverse.dropWhile Char.isWhitespace).reverse⟩

/-- `getLastCommitDate(dirPath)`: trimmed `git log` output when non-empty;
otherwise (no history, or the command threw) the current date, with a
console warning.  Returns the date together with the warnings emitted. -/
def getLastCommitDate (git : GitOracle) (now : String) (dirPath : FsPath) :
    String × List String :=
  match git dirPath with
  | .output s =>
    let date := trimString s
    if date = "" then
      (now, ["warn: No git history found, using current date"])
    else
      (date, [])
  | .failure msg => (now, ["warn: Failed to get git date: " ++ msg])

/-- The UTF-16 code units of a string (JavaScript's string representation;
characters beyond the basic multilingual plane become surrogate pairs). -/
def utf16Units (s : String) : List Nat :=
  s.data.flatMap (fun c =>
    let v := c.toNat
    if v < 65536 then [v]
    else [55296 + (v - 65536) / 1024, 56320 + (v - 65536) % 1024])

/-- Three-way lexicographic comparison of code-unit sequences. -/
def unitsCompare : List Nat → List Nat → Int
  | [], [] => 0
  | [], _ :: _ => -1
  | _ :: _, [] => 1
  | a :: as, b :: bs =>
    if a < b then -1 else if b < a then 1 else unitsCompare as bs

/-- JavaScript string comparison (`<` / `>` on strings, and the default
`Array.prototype.sort` order): lexicographic on UTF-16 code units. -/
def jsCompareStrings (a b : String) : Int :=
  unitsCompare (utf16Units a) (utf16Units b)

/-- The order used by `softwareTypes.sort()` (default comparator). -/
def jsStrLe (a b : String) : Prop :=
  jsCompareStrings a b ≤ 0

instance : DecidableRel jsStrLe := fun a b =>
  inferInstanceAs (Decidable (jsCompareStrings a b ≤ 0))

/-- `discoverSoftwareTypes(toolsDir)`: the names of the immediate
subdirectories of the tools root, sorted ascending (`Array.prototype.sort`
with the default code-unit comparator; the sort is modelled by the stable
`insertionSort`, which agrees with any correct sort on a duplicate-free
listing). -/
def discoverSoftwareTypes (fs : FSEntry) (toolsDir : FsPath) : Except String (List String) :=
  match readdirSync fs toolsDir with
  | .error e => .error e
  | .ok entries =>
    let softwareTypes := entries.filter (fun entry =>
      match fs.lookup (toolsDir ++ [entry]) with
      | some (.dir _) => true
      | _ => false)
    .ok (softwareTypes.insertionSort jsStrLe)

/-- `findMetadataFiles`: depth-first traversal of a directory entry list,
collecting `currentDir ++ [name]` for every regular file named
`metadata.json`, in listing order; directories are recursed into first
(`stat.isDirectory()` is tested before the name). -/
def findInDir : FSEntries → FsPath → List FsPath
  | .nil, _ => []
  | .cons n (.dir es2) rest, currentDir =>
    findInDir es2 (currentDir ++ [n]) ++ findInDir rest currentDir
  | .cons n (.file _) rest, currentDir =>
    (if n = "metadata.json" then [currentDir ++ [n]] else []) ++ findInDir rest currentDir

/-- `findMetadataFiles(dir)`: all `metadata.json` file paths anywhere below
`dir`; throws if `dir` is missing or not a directory (the initial
`fs.readdirSync`). -/
def findMetadataFiles (fs : FSEntry) (dir : FsPath) : Except String (List FsPath) :=
  match fs.lookup dir with
  | some (.dir es) => .ok (findInDir es dir)
  | some (.file _) => .error "ENOTDIR"
  | none => .error "ENOENT"

/-- One record of the generated catalog.  `dependencies = none` and
`id = none` model the keys being absent from the JSON object. -/
structure Tool where
  name : String
  description : String
  folder : String
  updated_at : String
  dependencies : Option (List String)
  id : Option String
deriving DecidableEq, Repr

/-- Result of `processTool`: the returned value (`{tool, softwareType}` or
`null`) together with the diagnostic lines printed on the console. -/
structure PTResult where
  result : Option (Tool × String)
  log : List String
deriving DecidableEq, Repr

/-- `processTool(metadataPath)`: read and parse the descriptor, derive the
software type and folder name, validate the main file, collect dependency
files and the git timestamp, and build the tool record.  The whole body is
wrapped in `try { } catch`, so every thrown error becomes a `null` result
plus a console error line. -/
def processTool (fs : FSEntry) (git : GitOracle) (now : String) (metadataPath : FsPath) :
    PTResult :=
  match readFileSync fs metadataPath with
  | .error e => ⟨none, ["error: Failed to process: " ++ e]⟩
  | .ok content =>
  match jsonParse content with
  | .error e => ⟨none, ["error: Failed to process: " ++ e]⟩
  | .ok metadata =>
  match extractSoftwareType metadataPath with
  | .error e => ⟨none, ["error: Failed to process: " ++ e]⟩
  | .ok softwareType =>
  let toolName := extractToolName metadataPath
  if verifyMainToolFile fs metadataPath softwareType then
    match findDependencies fs metadataPath softwareType with
    | .error e => ⟨none, ["error: Failed to process: " ++ e]⟩
    | .ok dependencies =>
      let dateAndLog := getLastCommitDate git now metadataPath.dropLast
      let tool : Tool :=
        { name := jsOrElse metadata.name toolName
          description := jsOrElse metadata.description ""
          folder := toolName
          updated_at := dateAndLog.1
          dependencies := if dependencies.length > 0 then some dependencies else none
          id := if jsTruthy metadata.id then metadata.id else none }
      ⟨some (tool, softwareType), dateAndLog.2 ++ ["log: processed " ++ tool.name]⟩
  else
    ⟨none, ["error: Skipping " ++ toolName ++ ": Missing main file "
              ++ getMainFileName softwareType]⟩

/-- An ASCII decimal digit. -/
def isAsciiDigit (c : Char) : Bool :=
  48 ≤ c.toNat ∧ c.toNat ≤ 57

/-- The value of a decimal digit string. -/
def decimalValue (ds : List Char) : Nat :=
  ds.foldl (fun acc c => 10 * acc + (c.toNat - 48)) 0

/-- A canonical array-index string in the sense of the ECMAScript object
model: the decimal representation of some `n < 2^32 - 1` (all digits, no
leading zero).  Such keys are enumerated first, in ascending numeric
order. -/
def canonicalArrayIndex (s : String) : Option Nat :=
  match s.data with
  | [] => none
  | c :: cs =>
    if (c :: cs).all isAsciiDigit ∧ (c = '0' → cs = []) ∧
        decimalValue (c :: cs) < 4294967295 then
      some (decimalValue (c :: cs))
    else none

/-- First-occurrence deduplication (property creation order of an object:
the first assignment to a key creates it, later ones only change the
value). -/
def dedupFirstAux (seen : List String) : List String → List String
  | [] => []
  | k :: rest =>
    if k ∈ seen then dedupFirstAux seen rest
    else k :: dedupFirstAux (k :: seen) rest

/-- First-occurrence deduplication of a key list. -/
def dedupFirst (keys : List String) : List String :=
  dedupFirstAux [] keys

/-- Numeric order on array-index keys. -/
def arrayIndexLe (a b : String) : Prop :=
  (canonicalArrayIndex a).getD 0 ≤ (canonicalArrayIndex b).getD 0

instance : DecidableRel arrayIndexLe := fun a b =>
  inferInstanceAs (Decidable ((canonicalArrayIndex a).getD 0 ≤ (canonicalArrayIndex b).getD 0))

/-- Own-property enumeration order of a plain object built by inserting the
given keys in the given order (`Object.fromEntries`, then `JSON.stringify`
and `Object.entries`): canonical array-index keys first in ascending
numeric order, then the remaining keys in creation order. -/
def jsObjectKeys (insertionKeys : List String) : List String :=
  let uniq := dedupFirst insertionKeys
  let indexKeys := uniq.filter (fun k => (canonicalArrayIndex k).isSome)
  let namedKeys := uniq.filter (fun k => (canonicalArrayIndex k).isNone)
  indexKeys.insertionSort arrayIndexLe ++ namedKeys

/-- The generated catalog document.  `tools` is the category-to-records
mapping as the association list in the object's enumeration order (the
order `JSON.stringify` serializes it in). -/
structure Catalog where
  version : String
  generated_at : String
  tools : List (String × List Tool)
deriving DecidableEq, Repr

/-- `Object.fromEntries(softwareTypes.map(type => [type, []]))`. -/
def initCatalogTools (softwareTypes : List String) : List (String × List Tool) :=
  (jsObjectKeys softwareTypes).map (fun k => (k, []))

/-- `if (catalog.tools[softwareType]) catalog.tools[softwareType].push(tool)
else warn`: append to the list at an existing key, drop the record (with a
warning) otherwise. -/
def pushTool (toolsMap : List (String × List Tool)) (softwareType : String) (t : Tool) :
    List (String × List Tool) :=
  if toolsMap.any (fun kv => kv.1 = softwareType) then
    toolsMap.map (fun kv => if kv.1 = softwareType then (kv.1, kv.2 ++ [t]) else kv)
  else
    toolsMap

/-- `main()`: the driver (named `mainRun` here because Lean reserves the
name `main` for executables).  Returns the process exit code together with the
catalog document written to `catalog.json` (`none` when the run fails
before the write).  `lc` is the `localeCompare` collator, `cwd` the working
directory, `now` the wall-clock time of the run. -/
def mainRun (lc : String → String → Int) (fs : FSEntry) (git : GitOracle)
    (cwd : FsPath) (now : String) : Nat × Option Catalog :=
  let toolsDir := cwd ++ ["tools"]
  if existsSync fs toolsDir = false then
    (1, none)
  else
    match findMetadataFiles fs toolsDir, discoverSoftwareTypes fs toolsDir with
    | .ok metadataFiles, .ok softwareTypes =>
      let catalogInit := initCatalogTools softwareTypes
      let filled := metadataFiles.foldl (fun acc p =>
        match (processTool fs git now p).result with
        | some toolAndType => pushTool acc toolAndType.2 toolAndType.1
        | none => acc) catalogInit
      let sortedTools := filled.map (fun kv =>
        (kv.1, @List.insertionSort Tool (fun a b => lc a.name b.name ≤ 0)
                 (fun a b => Int.decLe (lc a.name b.name) 0) kv.2))
      (0, some { version := "1.0.0", generated_at := now, tools := sortedTools })
    | _, _ => (1, none)

/-- The names of the immediate subdirectories of `root`, in listing order
(the specification's notion of the category set: "the set of names of
immediate subdirectories of the tools root"). -/
def immediateSubdirNames (fs : FSEntry) (root : FsPath) : List String :=
  match readdirSync fs root with
  | .ok names => names.filter (fun n =>
      match fs.lookup (root ++ [n]) with
      | some (.dir _) => true
      | _ => false)
  | .error _ => []

/-! ## Concrete fixtures

Small filesystems and oracles used to instantiate theorems with
hypotheses and to exhibit concrete runs. -/

/-- A git oracle whose every query succeeds with a fixed date. -/
def gitOut : GitOracle := fun _ => .output "2024-01-01T00:00:00Z"

/-- A git oracle whose every query throws. -/
def gitFail : GitOracle := fun _ => .failure "boom"

/-- `tools/blender/a/` with a valid descriptor and `tool.py` present —
but as a (sub)directory, not a regular file. -/
def fsMainDirTool : FSEntry :=
  dirOf [("tools", dirOf [("blender", dirOf [("a", dirOf [
    ("metadata.json", .file (.meta ⟨some "A", none, none⟩)),
    ("tool.py", dirOf [])])])])]

/-- A tools root whose two categories are the numeric strings `10` and
`2`. -/
def fsNum : FSEntry :=
  dirOf [("tools", dirOf [("10", dirOf []), ("2", dirOf [])])]

/-- Two valid tools in one category whose descriptors carry the same
display name. -/
def fsDup : FSEntry :=
  dirOf [("tools", dirOf [("blender", dirOf [
    ("a1", dirOf [("metadata.json", .file (.meta ⟨some "A", none, none⟩)),
                 ("tool.py", .file .invalidJson)]),
    ("a2", dirOf [("metadata.json", .file (.meta ⟨some "A", none, none⟩)),
                 ("tool.py", .file .invalidJson)])])])]

/-- A valid tool whose descriptor supplies `name` as the empty string. -/
def fsEmptyName : FSEntry :=
  dirOf [("tools", dirOf [("blender", dirOf [("a", dirOf [
    ("metadata.json", .file (.meta ⟨some "", none, none⟩)),
    ("tool.py", .file .invalidJson)])])])]

/-- A fully regular single-tool filesystem: `tools/blender/a/` with a
descriptor (name, description, id all set), the main file, and one extra
dependency file. -/
def fsGood : FSEntry :=
  dirOf [("tools", dirOf [("blender", dirOf [("a", dirOf [
    ("extra.txt", .file .invalidJson),
    ("metadata.json", .file (.meta ⟨some "A", some "desc", some "idA"⟩)),
    ("tool.py", .file .invalidJson)])])])]

/-- A tool directory without its main file. -/
def fsNoMain : FSEntry :=
  dirOf [("tools", dirOf [("blender", dirOf [("b", dirOf [
    ("metadata.json", .file (.meta ⟨some "B", none, none⟩))])])])]

/-- A `metadata.json` sitting directly inside a category directory (one
level too shallow). -/
def fsShallow : FSEntry :=
  dirOf [("tools", dirOf [("blender", dirOf [
    ("metadata.json", .file (.meta ⟨some "S", none, none⟩)),
    ("tool.py", .file .invalidJson)])])]

/-- The record `fsGood` produces for its single tool. -/
def toolGoodA : Tool :=
  { name := "A", description := "desc", folder := "a",
    updated_at := "2024-01-01T00:00:00Z",
    dependencies := some ["extra.txt"], id := some "idA" }

/-! ## Helper lemmas -/

/-- Anatomy of a successful `processTool` run: every stage succeeded and
the returned record is built from the descriptor, the folder name, the
dependency listing and the git date. -/
theorem processTool_some_spec (fs : FSEntry) (git : GitOracle) (now : String)
    (p : FsPath) (t : Tool) (st : String)
    (h : (processTool fs git now p).result = some (t, st)) :
    ∃ m deps,
      readFileSync fs p = .ok (.meta m) ∧
      extractSoftwareType p = .ok st ∧
      verifyMainToolFile fs p st = true ∧
      findDependencies fs p st = .ok deps ∧
      t = { name := jsOrElse m.name (extractToolName p)
            description := jsOrElse m.description ""
            folder := extractToolName p
            updated_at := (getLastCommitDate git now p.dropLast).1
            dependencies := if deps.length > 0 then some deps else none
            id := if jsTruthy m.id then m.id else none } := by
  unfold processTool at h
  split at h
  · simp at h
  · rename_i content hr
    cases content with
    | invalidJson => simp [jsonParse] at h
    | meta m =>
      simp only [jsonParse] at h
      split at h
      · simp at h
      · rename_i st0 hx
        split at h
        · rename_i hv
          split at h
          · simp at h
          · rename_i deps hd
            simp only [PTResult.mk.injEq] at h
            simp at h
            obtain ⟨ht, hst⟩ := h
            subst hst
            exact ⟨m, deps, hr, hx, hv, hd, ht.symm⟩
        · simp at h

/-- Membership in the map after a `pushTool`: the key was already present,
and its list either is unchanged or received the new record at the end. -/
theorem mem_pushTool {m : List (String × List Tool)} {st2 : String} {t2 : Tool}
    {st : String} {ts : List Tool}
    (h : (st, ts) ∈ pushTool m st2 t2) :
    ∃ ts0, (st, ts0) ∈ m ∧ (ts = ts0 ∨ (st = st2 ∧ ts = ts0 ++ [t2])) := by
  unfold pushTool at h
  split at h
  · obtain ⟨kv, hkv, hmap⟩ := List.mem_map.mp h
    obtain ⟨k, vs⟩ := kv
    by_cases hk : k = st2
    · rw [if_pos hk] at hmap
      obtain ⟨h1, h2⟩ := Prod.mk.injEq .. |>.mp hmap
      subst h1 hk
      exact ⟨vs, hkv, Or.inr ⟨rfl, h2.symm⟩⟩
    · rw [if_neg hk] at hmap
      obtain ⟨h1, h2⟩ := Prod.mk.injEq .. |>.mp hmap
      subst h1
      exact ⟨vs, hkv, Or.inl h2.symm⟩
  · exact ⟨ts, h, Or.inl rfl⟩

/-- Soundness of the aggregation fold: every record in the folded map was
already in the accumulator or is the successful `processTool` result of one
of the scanned descriptor paths, filed under its software type. -/
theorem mem_foldl_catalog (fs : FSEntry) (git : GitOracle) (now : String) :
    ∀ (ps : List FsPath) (acc : List (String × List Tool)) (st : String)
      (ts : List Tool) (t : Tool),
      (st, ts) ∈ ps.foldl (fun acc p =>
          match (processTool fs git now p).result with
          | some toolAndType => pushTool acc toolAndType.2 toolAndType.1
          | none => acc) acc →
      t ∈ ts →
      (∃ ts0, (st, ts0) ∈ acc ∧ t ∈ ts0) ∨
        ∃ p, p ∈ ps ∧ (processTool fs git now p).result = some (t, st) := by
  intro ps
  induction ps with
  | nil =>
    intro acc st ts t h ht
    exact Or.inl ⟨ts, h, ht⟩
  | cons p ps ih =>
    intro acc st ts t h ht
    rw [List.foldl_cons] at h
    rcases ih _ st ts t h ht with ⟨ts0, hmem, ht0⟩ | ⟨q, hq, hres⟩
    · cases hres : (processTool fs git now p).result with
      | none =>
        rw [hres] at hmem
        exact Or.inl ⟨ts0, hmem, ht0⟩
      | some tt =>
        rw [hres] at hmem
        rcases mem_pushTool hmem with ⟨ts1, hmem1, heq⟩
        rcases heq with heq1 | ⟨hst, heq2⟩
        · exact Or.inl ⟨ts1, hmem1, heq1 ▸ ht0⟩
        · rw [heq2] at ht0
          rcases List.mem_append.mp ht0 with h1 | h2
          · exact Or.inl ⟨ts1, hmem1, h1⟩
          · refine Or.inr ⟨p, List.mem_cons_self p ps, ?_⟩
            rw [hres]
            obtain ⟨a, b⟩ := tt
            simp only [List.mem_singleton] at h2
            subst hst h2
            rfl
    · exact Or.inr ⟨q, List.mem_cons_of_mem _ hq, hres⟩

/-- The initial category map holds an empty list at every key. -/
theorem mem_initCatalogTools {types : List String} {st : String} {ts : List Tool}
    (h : (st, ts) ∈ initCatalogTools types) : ts = [] := by
  unfold initCatalogTools at h
  obtain ⟨k, hk, hmap⟩ := List.mem_map.mp h
  exact (Prod.mk.injEq .. |>.mp hmap).2.symm

/-- Anatomy of a run that produced a catalog: the exit code is 0, the scan
and the category discovery succeeded, and the catalog is the sorted fold of
the per-tool results over the initial category map. -/
theorem mainRun_some_spec (lc : String → String → Int) (fs : FSEntry) (git : GitOracle)
    (cwd : FsPath) (now : String) (code : Nat) (c : Catalog)
    (h : mainRun lc fs git cwd now = (code, some c)) :
    code = 0 ∧
    ∃ files types,
      findMetadataFiles fs (cwd ++ ["tools"]) = .ok files ∧
      discoverSoftwareTypes fs (cwd ++ ["tools"]) = .ok types ∧
      c.version = "1.0.0" ∧ c.generated_at = now ∧
      c.tools = (files.foldl (fun acc p =>
          match (processTool fs git now p).result with
          | some toolAndType => pushTool acc toolAndType.2 toolAndType.1
          | none => acc) (initCatalogTools types)).map
        (fun kv => (kv.1, @List.insertionSort Tool (fun a b => lc a.name b.name ≤ 0)
                   (fun a b => Int.decLe (lc a.name b.name) 0) kv.2)) := by
  unfold mainRun at h
  dsimp only [] at h
  split at h
  · simp at h
  · split at h
    · rename_i files types hf hd
      simp only [Prod.mk.injEq, Option.some.injEq] at h
      obtain ⟨hcode, hc⟩ := h
      refine ⟨hcode.symm, files, types, hf, hd, ?_, ?_, ?_⟩ <;> rw [← hc]
    · simp at h

/-! ## The claims -/

/-- C1 (amended): a record appears in the generated catalog only if a
scanned descriptor path produced it and the main-file path for its category
exists in the tool's directory — as *any* filesystem entry, the check being
`fs.existsSync`; and whenever that path does not exist (so in particular
when the main file is absent), `processTool` returns `null`, excluding the
tool without recording any error object. -/
theorem c1_theorem :
    (∀ (lc : String → String → Int) (fs : FSEntry) (git : GitOracle) (cwd : FsPath)
       (now : String) (code : Nat) (c : Catalog) (st : String) (ts : List Tool) (t : Tool),
       mainRun lc fs git cwd now = (code, some c) →
       (st, ts) ∈ c.tools → t ∈ ts →
       ∃ files p, findMetadataFiles fs (cwd ++ ["tools"]) = .ok files ∧ p ∈ files ∧
         existsSync fs (p.dropLast ++ [getMainFileName st]) = true) ∧
    (∀ (fs : FSEntry) (git : GitOracle) (now : String) (p : FsPath) (st : String),
       extractSoftwareType p = .ok st →
       verifyMainToolFile fs p st = false →
       (processTool fs git now p).result = none) := by
  constructor
  · intro lc fs git cwd now code c st ts t hmain hmem ht
    obtain ⟨-, files, types, hf, hd, -, -, htools⟩ :=
      mainRun_some_spec lc fs git cwd now code c hmain
    rw [htools] at hmem
    obtain ⟨kv, hkv, hmap⟩ := List.mem_map.mp hmem
    obtain ⟨h1, h2⟩ := Prod.mk.injEq .. |>.mp hmap
    subst h1
    rw [← h2] at ht
    have ht2 : t ∈ kv.2 := (List.perm_insertionSort _ kv.2).subset ht
    rcases mem_foldl_catalog fs git now files (initCatalogTools types) kv.1 kv.2 t hkv ht2 with
      ⟨ts0, hmem0, ht0⟩ | ⟨p, hp, hres⟩
    · rw [mem_initCatalogTools hmem0] at ht0
      exact absurd ht0 (List.not_mem_nil t)
    · obtain ⟨m, deps, -, -, hv, -, -⟩ := processTool_some_spec fs git now p t kv.1 hres
      exact ⟨files, p, hf, hp, hv⟩
  · intro fs git now p st hx hv
    unfold processTool
    split
    · rfl
    · rename_i content hr
      cases content with
      | invalidJson => rfl
      | meta m =>
        simp only [jsonParse]
        rw [hx]
        simp only [hv]
        rfl

/-- Witness for C1: a concrete run (`fsGood`) whose single catalog record
satisfies the main-file conclusion, and a concrete tool without its main
file (`fsNoMain`) that `processTool` rejects with a `null` result. -/
theorem c1_witness :
    (mainRun jsCompareStrings fsGood gitOut [] "NOW" =
      (0, some { version := "1.0.0", generated_at := "NOW",
                 tools := [("blender", [toolGoodA])] })) ∧
    (∃ files p, findMetadataFiles fsGood ([] ++ ["tools"]) = .ok files ∧ p ∈ files ∧
       existsSync fsGood (p.dropLast ++ [getMainFileName "blender"]) = true) ∧
    extractSoftwareType ["tools", "blender", "b", "metadata.json"] = .ok "blender" ∧
    verifyMainToolFile fsNoMain ["tools", "blender", "b", "metadata.json"] "blender" = false ∧
    (processTool fsNoMain gitOut "NOW" ["tools", "blender", "b", "metadata.json"]).result = none :=
  ⟨by rfl,
   c1_theorem.1 jsCompareStrings fsGood gitOut [] "NOW" 0
     { version := "1.0.0", generated_at := "NOW", tools := [("blender", [toolGoodA])] }
     "blender" [toolGoodA] toolGoodA (by rfl) (by decide) (by decide),
   by rfl, by rfl,
   c1_theorem.2 fsNoMain gitOut "NOW" ["tools", "blender", "b", "metadata.json"] "blender"
     (by rfl) (by rfl)⟩

/-- Counterexample to C1 as stated: in `fsMainDirTool` the entry
`tools/blender/a/tool.py` is a directory, not a regular file, yet the tool
appears in the catalog — `fs.existsSync` does not check the entry kind, so
"exists as a regular file" is not what the code validates. -/
theorem c1_counterexample :
    mainRun jsCompareStrings fsMainDirTool gitOut [] "NOW" =
      (0, some { version := "1.0.0", generated_at := "NOW",
                 tools := [("blender",
                   [{ name := "A", description := "", folder := "a",
                      updated_at := "2024-01-01T00:00:00Z",
                      dependencies := none, id := none }])] }) ∧
    isRegularFile fsMainDirTool ["tools", "blender", "a", "tool.py"] = false :=
  ⟨by rfl, by rfl⟩

/-- Membership in the seen-list based dedup loop. -/
theorem mem_dedupFirstAux {seen : List String} {l : List String} {x : String} :
    x ∈ dedupFirstAux seen l ↔ x ∈ l ∧ x ∉ seen := by
  induction l generalizing seen with
  | nil => simp [dedupFirstAux]
  | cons k rest ih =>
    unfold dedupFirstAux
    by_cases hk : k ∈ seen
    · rw [if_pos hk, ih]
      constructor
      · rintro ⟨h1, h2⟩
        exact ⟨List.mem_cons_of_mem _ h1, h2⟩
      · rintro ⟨h1, h2⟩
        rcases List.mem_cons.mp h1 with rfl | h1
        · exact absurd hk h2
        · exact ⟨h1, h2⟩
    · rw [if_neg hk]
      constructor
      · intro h
        rcases List.mem_cons.mp h with rfl | h
        · exact ⟨List.mem_cons_self .., hk⟩
        · obtain ⟨h1, h2⟩ := ih.mp h
          have : x ∉ seen := fun hx => h2 (List.mem_cons_of_mem _ hx)
          exact ⟨List.mem_cons_of_mem _ h1, this⟩
      · rintro ⟨h1, h2⟩
        rcases List.mem_cons.mp h1 with rfl | h1
        · exact List.mem_cons_self ..
        · by_cases hxk : x = k
          · subst hxk; exact List.mem_cons_self ..
          · refine List.mem_cons_of_mem _ (ih.mpr ⟨h1, ?_⟩)
            intro hx
            rcases List.mem_cons.mp hx with h | h
            · exact hxk h
            · exact h2 h

/-- First-occurrence dedup preserves membership. -/
theorem mem_dedupFirst {l : List String} {x : String} :
    x ∈ dedupFirst l ↔ x ∈ l := by
  unfold dedupFirst
  rw [mem_dedupFirstAux]
  simp

/-- The dedup loop is the identity on duplicate-free input. -/
theorem dedupFirstAux_eq_self {l : List String} :
    ∀ {seen : List String}, (∀ x ∈ l, x ∉ seen) → l.Nodup → dedupFirstAux seen l = l := by
  induction l with
  | nil => intro seen h hnd; rfl
  | cons k rest ih =>
    intro seen h hnd
    unfold dedupFirstAux
    rw [if_neg (h k (List.mem_cons_self ..))]
    congr 1
    refine ih ?_ (List.Nodup.of_cons hnd)
    intro x hx hmem
    rcases List.mem_cons.mp hmem with rfl | hmem
    · exact (List.nodup_cons.mp hnd).1 hx
    · exact h x (List.mem_cons_of_mem _ hx) hmem

/-- First-occurrence dedup is the identity on duplicate-free lists. -/
theorem dedupFirst_eq_self {l : List String} (hnd : l.Nodup) : dedupFirst l = l :=
  dedupFirstAux_eq_self (by simp) hnd

/-- Object key enumeration preserves the key set. -/
theorem mem_jsObjectKeys {l : List String} {k : String} :
    k ∈ jsObjectKeys l ↔ k ∈ l := by
  unfold jsObjectKeys
  rw [List.mem_append]
  constructor
  · rintro (h | h)
    · exact mem_dedupFirst.mp (List.mem_of_mem_filter ((List.perm_insertionSort arrayIndexLe _).subset h))
    · exact mem_dedupFirst.mp (List.mem_of_mem_filter h)
  · intro h
    have hd : k ∈ dedupFirst l := mem_dedupFirst.mpr h
    by_cases hs : (canonicalArrayIndex k).isSome
    · exact Or.inl ((List.perm_insertionSort arrayIndexLe _).mem_iff.mpr
        (List.mem_filter.mpr ⟨hd, by simp [hs]⟩))
    · refine Or.inr (List.mem_filter.mpr ⟨hd, ?_⟩)
      simp [Option.not_isSome_iff_eq_none.mp hs]

/-- With no array-index keys and no duplicates, enumeration order is
creation order. -/
theorem jsObjectKeys_eq_self {l : List String} (hnd : l.Nodup)
    (hname : ∀ k ∈ l, (canonicalArrayIndex k).isNone) : jsObjectKeys l = l := by
  have hidx : l.filter (fun k => (canonicalArrayIndex k).isSome) = [] := by
    rw [List.filter_eq_nil_iff]
    intro a ha
    simp [Option.isNone_iff_eq_none.mp (hname a ha)]
  have hnm : l.filter (fun k => (canonicalArrayIndex k).isNone) = l :=
    List.filter_eq_self.mpr hname
  simp only [jsObjectKeys, dedupFirst_eq_self hnd, hidx, hnm]
  rfl

/-- `pushTool` never adds or removes keys. -/
theorem pushTool_keys (m : List (String × List Tool)) (st : String) (t : Tool) :
    (pushTool m st t).map Prod.fst = m.map Prod.fst := by
  unfold pushTool
  split
  · rw [List.map_map]
    refine List.map_congr_left ?_
    intro kv _
    by_cases hk : kv.1 = st
    · simp [hk]
    · simp [hk]
  · rfl

/-- The aggregation fold never adds or removes keys. -/
theorem foldl_catalog_keys (fs : FSEntry) (git : GitOracle) (now : String)
    (ps : List FsPath) :
    ∀ acc : List (String × List Tool),
      (ps.foldl (fun acc p =>
          match (processTool fs git now p).result with
          | some toolAndType => pushTool acc toolAndType.2 toolAndType.1
          | none => acc) acc).map Prod.fst = acc.map Prod.fst := by
  induction ps with
  | nil => intro acc; rfl
  | cons p ps ih =>
    intro acc
    rw [List.foldl_cons, ih]
    cases (processTool fs git now p).result with
    | none => rfl
    | some tt => exact pushTool_keys acc tt.2 tt.1

/-- `discoverSoftwareTypes` returns exactly the immediate subdirectory
names, sorted. -/
theorem discoverSoftwareTypes_spec {fs : FSEntry} {root : FsPath} {types : List String}
    (h : discoverSoftwareTypes fs root = .ok types) :
    types = (immediateSubdirNames fs root).insertionSort jsStrLe := by
  unfold discoverSoftwareTypes at h
  cases hr : readdirSync fs root with
  | error e => rw [hr] at h; exact absurd h (by simp)
  | ok entries =>
    rw [hr] at h
    simp only [Except.ok.injEq] at h
    have h2 : immediateSubdirNames fs root = entries.filter (fun n =>
        match fs.lookup (root ++ [n]) with
        | some (.dir _) => true
        | _ => false) := by
      unfold immediateSubdirNames
      rw [hr]
    rw [h2, ← h]

/-- C2 (amended): the key set of the output `tools` mapping equals exactly
the set of immediate subdirectory names of the tools root (categories with
zero valid tools keep their key, necessarily with an empty list), and the
key order is the JavaScript own-property enumeration order of the sorted
category list — which coincides with sorted ascending order whenever no
category name is a canonical array-index string (for array-index names the
object reorders keys numerically). -/
theorem c2_theorem :
    ∀ (lc : String → String → Int) (fs : FSEntry) (git : GitOracle) (cwd : FsPath)
      (now : String) (code : Nat) (c : Catalog),
      mainRun lc fs git cwd now = (code, some c) →
      ∃ types, discoverSoftwareTypes fs (cwd ++ ["tools"]) = .ok types ∧
        c.tools.map Prod.fst = jsObjectKeys types ∧
        (∀ k, k ∈ c.tools.map Prod.fst ↔ k ∈ immediateSubdirNames fs (cwd ++ ["tools"])) ∧
        ((immediateSubdirNames fs (cwd ++ ["tools"])).Nodup →
          (∀ k ∈ types, (canonicalArrayIndex k).isNone) →
          c.tools.map Prod.fst = types) := by
  intro lc fs git cwd now code c hmain
  obtain ⟨-, files, types, hf, hd, -, -, htools⟩ :=
    mainRun_some_spec lc fs git cwd now code c hmain
  have hkeys : c.tools.map Prod.fst = jsObjectKeys types := by
    rw [htools, List.map_map]
    have hcomp : (Prod.fst ∘ fun kv : String × List Tool =>
        (kv.1, @List.insertionSort Tool (fun a b => lc a.name b.name ≤ 0)
          (fun a b => Int.decLe (lc a.name b.name) 0) kv.2)) = Prod.fst := rfl
    rw [hcomp, foldl_catalog_keys]
    unfold initCatalogTools
    rw [List.map_map]
    have hid : (Prod.fst ∘ fun k : String => (k, ([] : List Tool))) = id := rfl
    rw [hid, List.map_id]
  have hts : types = (immediateSubdirNames fs (cwd ++ ["tools"])).insertionSort jsStrLe :=
    discoverSoftwareTypes_spec hd
  refine ⟨types, hd, hkeys, ?_, ?_⟩
  · intro k
    rw [hkeys, mem_jsObjectKeys, hts]
    exact (List.perm_insertionSort _ _).mem_iff
  · intro hnd hname
    have hndt : types.Nodup := by
      rw [hts]
      exact ((List.perm_insertionSort _ _).nodup_iff).mpr hnd
    rw [hkeys, jsObjectKeys_eq_self hndt hname]

/-- Witness for C2: the concrete `fsGood` run, with every hypothesis of
`c2_theorem` discharged at it. -/
theorem c2_witness :
    (mainRun jsCompareStrings fsGood gitOut [] "NOW" =
      (0, some { version := "1.0.0", generated_at := "NOW",
                 tools := [("blender", [toolGoodA])] })) ∧
    (∃ types, discoverSoftwareTypes fsGood ([] ++ ["tools"]) = .ok types ∧
      [("blender", [toolGoodA])].map Prod.fst = jsObjectKeys types ∧
      (∀ k, k ∈ ([("blender", [toolGoodA])].map Prod.fst) ↔
        k ∈ immediateSubdirNames fsGood ([] ++ ["tools"])) ∧
      ((immediateSubdirNames fsGood ([] ++ ["tools"])).Nodup →
        (∀ k ∈ types, (canonicalArrayIndex k).isNone) →
        [("blender", [toolGoodA])].map Prod.fst = types)) :=
  ⟨by rfl,
   c2_theorem jsCompareStrings fsGood gitOut [] "NOW" 0
     { version := "1.0.0", generated_at := "NOW", tools := [("blender", [toolGoodA])] }
     (by rfl)⟩

/-- Counterexample to C2 as stated: with categories named `10` and `2`, the
sorted category order is `["10", "2"]` (code-unit ascending), but the
output mapping enumerates `["2", "10"]` — JavaScript objects enumerate
array-index keys in numeric order, so the mapping does not preserve sorted
category order for every possible set of category names. -/
theorem c2_counterexample :
    discoverSoftwareTypes fsNum ["tools"] = .ok ["10", "2"] ∧
    jsCompareStrings "10" "2" = -1 ∧
    mainRun jsCompareStrings fsNum gitOut [] "NOW" =
      (0, some { version := "1.0.0", generated_at := "NOW",
                 tools := [("2", []), ("10", [])] }) ∧
    ([("2", ([] : List Tool)), ("10", [])].map Prod.fst ≠ ["10", "2"]) :=
  ⟨by rfl, by rfl, by rfl, by decide⟩

/-- Code-unit comparison is antisymmetric under swapping. -/
theorem unitsCompare_swap : ∀ x y : List Nat, unitsCompare x y = - unitsCompare y x
  | [], [] => rfl
  | [], _ :: _ => rfl
  | _ :: _, [] => rfl
  | a :: as, b :: bs => by
    simp only [unitsCompare]
    by_cases hab : a < b
    · rw [if_pos hab, if_neg (Nat.lt_asymm hab), if_pos hab]
    · by_cases hba : b < a
      · rw [if_neg hab, if_pos hba, if_pos hba]
        decide
      · rw [if_neg hab, if_neg hba, if_neg hba, if_neg hab]
        exact unitsCompare_swap as bs

/-- The empty code-unit sequence is minimal. -/
theorem unitsCompare_nil_le (z : List Nat) : unitsCompare [] z ≤ 0 := by
  cases z <;> simp [unitsCompare]

/-- Code-unit comparison is transitive on the non-positive side. -/
theorem unitsCompare_trans :
    ∀ x y z : List Nat, unitsCompare x y ≤ 0 → unitsCompare y z ≤ 0 → unitsCompare x z ≤ 0
  | [], _, z, _, _ => unitsCompare_nil_le z
  | _ :: _, [], _, h1, _ => by simp [unitsCompare] at h1
  | _ :: _, _ :: _, [], _, h2 => by simp [unitsCompare] at h2
  | a :: as, b :: bs, c :: cs, h1, h2 => by
    simp only [unitsCompare] at h1 h2 ⊢
    rcases Nat.lt_trichotomy a b with hab | rfl | hba
    · rcases Nat.lt_trichotomy b c with hbc | rfl | hcb
      · rw [if_pos (Nat.lt_trans hab hbc)]
        decide
      · rw [if_pos hab]
        decide
      · rw [if_neg (Nat.lt_asymm hcb), if_pos hcb] at h2
        exact absurd h2 (by decide)
    · simp only [Nat.lt_irrefl, if_false] at h1
      rcases Nat.lt_trichotomy a c with hac | rfl | hca
      · rw [if_pos hac]
        decide
      · simp only [Nat.lt_irrefl, if_false] at h2 ⊢
        exact unitsCompare_trans as bs cs h1 h2
      · rw [if_neg (Nat.lt_asymm hca), if_pos hca] at h2
        exact absurd h2 (by decide)
    · rw [if_neg (Nat.lt_asymm hba), if_pos hba] at h1
      exact absurd h1 (by decide)

/-- The concrete code-unit collator is total (on the non-positive side). -/
theorem jsCompareStrings_total (a b : String) :
    jsCompareStrings a b ≤ 0 ∨ jsCompareStrings b a ≤ 0 := by
  unfold jsCompareStrings
  rw [unitsCompare_swap]
  omega

/-- The concrete code-unit collator is transitive. -/
theorem jsCompareStrings_trans (a b c : String) :
    jsCompareStrings a b ≤ 0 → jsCompareStrings b c ≤ 0 → jsCompareStrings a c ≤ 0 :=
  unitsCompare_trans _ _ _

/-- C3 (amended): after aggregation, every category's list is ordered by
`name` non-decreasingly under the locale comparison (for any consistent
comparator), and the sort is idempotent — re-sorting a category's list
yields the identical list.  Strict ordering cannot hold in general: two
records may carry the same name, which any comparator maps to 0. -/
theorem c3_theorem :
    ∀ (lc : String → String → Int),
      (∀ a b, lc a b ≤ 0 ∨ lc b a ≤ 0) →
      (∀ a b c, lc a b ≤ 0 → lc b c ≤ 0 → lc a c ≤ 0) →
      ∀ (fs : FSEntry) (git : GitOracle) (cwd : FsPath) (now : String)
        (code : Nat) (c : Catalog) (st : String) (ts : List Tool),
        mainRun lc fs git cwd now = (code, some c) →
        (st, ts) ∈ c.tools →
        ts.Pairwise (fun a b => lc a.name b.name ≤ 0) ∧
        @List.insertionSort Tool (fun a b => lc a.name b.name ≤ 0)
          (fun a b => Int.decLe (lc a.name b.name) 0) ts = ts := by
  intro lc htot htrans fs git cwd now code c st ts hmain hmem
  obtain ⟨-, files, types, -, -, -, -, htools⟩ :=
    mainRun_some_spec lc fs git cwd now code c hmain
  rw [htools] at hmem
  obtain ⟨kv, hkv, hmap⟩ := List.mem_map.mp hmem
  obtain ⟨h1, h2⟩ := Prod.mk.injEq .. |>.mp hmap
  haveI instTot : IsTotal Tool (fun a b : Tool => lc a.name b.name ≤ 0) :=
    ⟨fun a b => htot a.name b.name⟩
  haveI instTrans : IsTrans Tool (fun a b : Tool => lc a.name b.name ≤ 0) :=
    ⟨fun a b c hab hbc => htrans a.name b.name c.name hab hbc⟩
  have hsorted := @List.sorted_insertionSort Tool (fun a b : Tool => lc a.name b.name ≤ 0)
    (fun a b => Int.decLe (lc a.name b.name) 0) instTot instTrans kv.2
  constructor
  · rw [← h2]
    exact hsorted
  · rw [← h2]
    exact List.Sorted.insertionSort_eq hsorted

/-- Witness for C3: the concrete comparator `jsCompareStrings` (whose
consistency is proved above) on the `fsGood` run; its single `blender`
list is sorted and re-sorting leaves it unchanged. -/
theorem c3_witness :
    (mainRun jsCompareStrings fsGood gitOut [] "NOW" =
      (0, some { version := "1.0.0", generated_at := "NOW",
                 tools := [("blender", [toolGoodA])] })) ∧
    ([toolGoodA].Pairwise (fun a b => jsCompareStrings a.name b.name ≤ 0) ∧
      @List.insertionSort Tool (fun a b => jsCompareStrings a.name b.name ≤ 0)
        (fun a b => Int.decLe (jsCompareStrings a.name b.name) 0) [toolGoodA] = [toolGoodA]) :=
  ⟨by rfl,
   c3_theorem jsCompareStrings jsCompareStrings_total jsCompareStrings_trans
     fsGood gitOut [] "NOW" 0
     { version := "1.0.0", generated_at := "NOW", tools := [("blender", [toolGoodA])] }
     "blender" [toolGoodA] (by rfl) (by decide)⟩

/-- Counterexample to C3 as stated: two tools with the same descriptor
name end up adjacent in one category list, and no comparator can order two
identical names strictly — the `fsDup` run's `blender` list is not
strictly ordered by name under the code-unit comparison. -/
theorem c3_counterexample :
    mainRun jsCompareStrings fsDup gitOut [] "NOW" =
      (0, some { version := "1.0.0", generated_at := "NOW",
                 tools := [("blender",
                   [{ name := "A", description := "", folder := "a1",
                      updated_at := "2024-01-01T00:00:00Z",
                      dependencies := none, id := none },
                    { name := "A", description := "", folder := "a2",
                      updated_at := "2024-01-01T00:00:00Z",
                      dependencies := none, id := none }])] }) ∧
    ¬ List.Pairwise (fun a b : Tool => jsCompareStrings a.name b.name < 0)
        [{ name := "A", description := "", folder := "a1",
           updated_at := "2024-01-01T00:00:00Z", dependencies := none, id := none },
         { name := "A", description := "", folder := "a2",
           updated_at := "2024-01-01T00:00:00Z", dependencies := none, id := none }] :=
  ⟨by rfl, by decide⟩

/-- C7 (amended): the Tool Processor never propagates an exception — every
failure path is caught.  Malformed descriptor content, an unreadable
descriptor, an invalid path structure, and a missing main file each yield a
`null` result (with a diagnostic for the readable cases); a
timestamp-lookup failure does NOT null the result: the date query falls
back to the current time with a warning diagnostic, and a tool that is
otherwise valid is still processed, its `updated_at` being the current
time. -/
theorem c7_theorem :
    (∀ (fs : FSEntry) (git : GitOracle) (now : String) (p : FsPath) (e : String),
       readFileSync fs p = .error e →
       (processTool fs git now p).result = none ∧ (processTool fs git now p).log ≠ []) ∧
    (∀ (fs : FSEntry) (git : GitOracle) (now : String) (p : FsPath),
       readFileSync fs p = .ok .invalidJson →
       (processTool fs git now p).result = none ∧ (processTool fs git now p).log ≠ []) ∧
    (∀ (fs : FSEntry) (git : GitOracle) (now : String) (p : FsPath) (e : String),
       extractSoftwareType p = .error e →
       (processTool fs git now p).result = none) ∧
    (∀ (fs : FSEntry) (git : GitOracle) (now : String) (p : FsPath) (st : String),
       extractSoftwareType p = .ok st →
       verifyMainToolFile fs p st = false →
       (processTool fs git now p).result = none ∧ (processTool fs git now p).log ≠ []) ∧
    (∀ (fs : FSEntry) (git : GitOracle) (now : String) (p : FsPath) (msg : String)
       (t : Tool) (st : String),
       git p.dropLast = .failure msg →
       (processTool fs git now p).result = some (t, st) →
       t.updated_at = now ∧
       getLastCommitDate git now p.dropLast =
         (now, ["warn: Failed to get git date: " ++ msg])) := by
  refine ⟨?_, ?_, ?_, ?_, ?_⟩
  · intro fs git now p e h
    unfold processTool
    rw [h]
    exact ⟨rfl, by simp⟩
  · intro fs git now p h
    unfold processTool
    rw [h]
    exact ⟨rfl, by simp [jsonParse]⟩
  · intro fs git now p e hx
    unfold processTool
    split
    · rfl
    · rename_i content hr
      cases content with
      | invalidJson => rfl
      | meta m =>
        simp only [jsonParse]
        rw [hx]
  · intro fs git now p st hx hv
    unfold processTool
    split
    · exact ⟨rfl, by simp⟩
    · rename_i content hr
      cases content with
      | invalidJson => exact ⟨rfl, by simp [jsonParse]⟩
      | meta m =>
        simp only [jsonParse]
        rw [hx]
        simp only [hv]
        exact ⟨rfl, by simp⟩
  · intro fs git now p msg t st hgit hsome
    obtain ⟨m, deps, -, -, -, -, ht⟩ := processTool_some_spec fs git now p t st hsome
    have hdate : getLastCommitDate git now p.dropLast =
        (now, ["warn: Failed to get git date: " ++ msg]) := by
      unfold getLastCommitDate
      rw [hgit]
    constructor
    · rw [ht]
      simp [hdate]
    · exact hdate

/-- Witness for C7: concrete instantiations of all five conjuncts — a
missing descriptor, a malformed descriptor, a path without a `tools`
anchor, a tool without its main file, and a valid tool processed under a
failing git oracle. -/
theorem c7_witness :
    ((processTool fsGood gitOut "NOW" ["tools", "blender", "a", "nope.json"]).result = none ∧
      (processTool fsGood gitOut "NOW" ["tools", "blender", "a", "nope.json"]).log ≠ []) ∧
    ((processTool fsGood gitOut "NOW" ["tools", "blender", "a", "tool.py"]).result = none ∧
      (processTool fsGood gitOut "NOW" ["tools", "blender", "a", "tool.py"]).log ≠ []) ∧
    (processTool (dirOf [("metadata.json", .file .invalidJson)]) gitOut "NOW"
      ["metadata.json"]).result = none ∧
    ((processTool fsNoMain gitOut "NOW" ["tools", "blender", "b", "metadata.json"]).result = none ∧
      (processTool fsNoMain gitOut "NOW" ["tools", "blender", "b", "metadata.json"]).log ≠ []) ∧
    ({ name := "A", description := "desc", folder := "a", updated_at := "NOW",
       dependencies := some ["extra.txt"], id := some "idA" : Tool }.updated_at = "NOW" ∧
      getLastCommitDate gitFail "NOW" (["tools", "blender", "a", "metadata.json"].dropLast) =
        ("NOW", ["warn: Failed to get git date: " ++ "boom"])) :=
  ⟨c7_theorem.1 fsGood gitOut "NOW" ["tools", "blender", "a", "nope.json"] "ENOENT" (by rfl),
   c7_theorem.2.1 fsGood gitOut "NOW" ["tools", "blender", "a", "tool.py"] (by rfl),
   c7_theorem.2.2.1 (dirOf [("metadata.json", .file .invalidJson)]) gitOut "NOW"
     ["metadata.json"] "Invalid tool path structure" (by rfl),
   c7_theorem.2.2.2.1 fsNoMain gitOut "NOW" ["tools", "blender", "b", "metadata.json"]
     "blender" (by rfl) (by rfl),
   c7_theorem.2.2.2.2 fsGood gitFail "NOW" ["tools", "blender", "a", "metadata.json"] "boom"
     { name := "A", description := "desc", folder := "a", updated_at := "NOW",
       dependencies := some ["extra.txt"], id := some "idA" } "blender" (by rfl) (by rfl)⟩

/-- Counterexample to C7 as stated: with a failing git oracle and an
otherwise valid tool, the processor's result is NOT null — the tool is
processed with the current time as `updated_at` and a warning diagnostic —
contradicting the claim that a timestamp-lookup failure yields a
null/absent result. -/
theorem c7_counterexample :
    gitFail (["tools", "blender", "a", "metadata.json"].dropLast) = .failure "boom" ∧
    processTool fsGood gitFail "NOW" ["tools", "blender", "a", "metadata.json"] =
      { result := some ({ name := "A", description := "desc", folder := "a",
                          updated_at := "NOW", dependencies := some ["extra.txt"],
                          id := some "idA" }, "blender"),
        log := ["warn: Failed to get git date: boom", "log: processed A"] } ∧
    (some ({ name := "A", description := "desc", folder := "a", updated_at := "NOW",
             dependencies := some ["extra.txt"], id := some "idA" : Tool }, "blender")
      ≠ (none : Option (Tool × String))) :=
  ⟨by rfl, by rfl, by decide⟩

/-- C8 (confirmed): if the tools root does not exist the run exits with
code 1 and writes no catalog document; if the root exists as a directory
the run exits with code 0 and writes a catalog, regardless of how many
individual tools were skipped. -/
theorem c8_theorem :
    (∀ (lc : String → String → Int) (fs : FSEntry) (git : GitOracle) (cwd : FsPath)
       (now : String),
       existsSync fs (cwd ++ ["tools"]) = false →
       mainRun lc fs git cwd now = (1, none)) ∧
    (∀ (lc : String → String → Int) (fs : FSEntry) (git : GitOracle) (cwd : FsPath)
       (now : String) (es : FSEntries),
       fs.lookup (cwd ++ ["tools"]) = some (.dir es) →
       ∃ c, mainRun lc fs git cwd now = (0, some c)) := by
  constructor
  · intro lc fs git cwd now h
    unfold mainRun
    dsimp only []
    rw [h]
    rfl
  · intro lc fs git cwd now es h
    have hex : existsSync fs (cwd ++ ["tools"]) = true := by
      unfold existsSync
      rw [h]
      rfl
    have hf : findMetadataFiles fs (cwd ++ ["tools"]) =
        .ok (findInDir es (cwd ++ ["tools"])) := by
      unfold findMetadataFiles
      rw [h]
    cases hd : discoverSoftwareTypes fs (cwd ++ ["tools"]) with
    | error e =>
      unfold discoverSoftwareTypes readdirSync at hd
      rw [h] at hd
      exact absurd hd (by simp)
    | ok types =>
      unfold mainRun
      dsimp only []
      rw [hex, hf, hd]
      exact ⟨_, rfl⟩

/-- Witness for C8: a root without a `tools` directory exits 1 with no
document; the `fsGood` root exits 0 with a document. -/
theorem c8_witness :
    existsSync (dirOf [("src", dirOf [])]) ["tools"] = false ∧
    mainRun jsCompareStrings (dirOf [("src", dirOf [])]) gitOut [] "NOW" = (1, none) ∧
    (∃ c, mainRun jsCompareStrings fsGood gitOut [] "NOW" = (0, some c)) :=
  ⟨by rfl,
   c8_theorem.1 jsCompareStrings (dirOf [("src", dirOf [])]) gitOut [] "NOW" (by rfl),
   c8_theorem.2 jsCompareStrings fsGood gitOut [] "NOW"
     (FSEntries.ofList [("blender", dirOf [("a", dirOf [
        ("extra.txt", .file .invalidJson),
        ("metadata.json", .file (.meta ⟨some "A", some "desc", some "idA"⟩)),
        ("tool.py", .file .invalidJson)])])]) (by rfl)⟩

/-- The first `tools` segment of `pre ++ "tools" :: post` sits at index
`pre.length` when `pre` holds no `tools` segment. -/
theorem indexOf_append_anchor (pre post : List String) (h : "tools" ∉ pre) :
    List.indexOf "tools" (pre ++ "tools" :: post) = pre.length := by
  induction pre with
  | nil => simp
  | cons a pre ih =>
    have ha : a ≠ "tools" := by
      intro hh
      exact h (hh ▸ List.mem_cons_self a pre)
    have hpre : "tools" ∉ pre := fun hm => h (List.mem_cons_of_mem _ hm)
    rw [List.cons_append, List.indexOf_cons_ne _ ha, ih hpre]
    rfl

/-- A path with no `tools` segment fails category derivation. -/
theorem extractSoftwareType_no_anchor (p : FsPath) (h : "tools" ∉ p) :
    extractSoftwareType p = .error "Invalid tool path structure" := by
  unfold extractSoftwareType
  dsimp only []
  rw [List.indexOf_eq_length.mpr h, if_pos (by omega)]

/-- A path whose (first) `tools` segment is last fails category
derivation. -/
theorem extractSoftwareType_anchor_last (pre : FsPath) (h : "tools" ∉ pre) :
    extractSoftwareType (pre ++ ["tools"]) = .error "Invalid tool path structure" := by
  unfold extractSoftwareType
  dsimp only []
  have hcond : pre.length + 1 ≥ (pre ++ ["tools"]).length := by simp
  rw [indexOf_append_anchor pre [] h, if_pos hcond]

/-- The derived category is the segment right after the first `tools`
segment. -/
theorem extractSoftwareType_anchor (pre : FsPath) (c : String) (rest : FsPath)
    (h : "tools" ∉ pre) :
    extractSoftwareType (pre ++ "tools" :: c :: rest) = .ok c := by
  unfold extractSoftwareType
  dsimp only []
  rw [indexOf_append_anchor pre (c :: rest) h]
  rw [if_neg (by simp only [List.length_append, List.length_cons]; omega)]
  rw [List.getD_append_right _ _ _ _ (by omega)]
  simp

/-- C9 (amended): the derived category equals the path segment immediately
following the first `tools` anchor segment; derivation fails exactly when
no `tools` segment exists or the first one is the last segment; and the
derived category coincides with the descriptor's parent-of-parent
directory name for paths of the regular shape
`<prefix>/tools/<category>/<tool>/metadata.json` whose prefix holds no
`tools` segment — not for every descriptor path. -/
theorem c9_theorem :
    (∀ p : FsPath, "tools" ∉ p →
       extractSoftwareType p = .error "Invalid tool path structure") ∧
    (∀ pre : FsPath, "tools" ∉ pre →
       extractSoftwareType (pre ++ ["tools"]) = .error "Invalid tool path structure") ∧
    (∀ (pre : FsPath) (c : String) (rest : FsPath), "tools" ∉ pre →
       extractSoftwareType (pre ++ "tools" :: c :: rest) = .ok c) ∧
    (∀ (pre : FsPath) (c tool : String), "tools" ∉ pre →
       extractSoftwareType (pre ++ ["tools", c, tool, "metadata.json"]) = .ok c ∧
       (pre ++ ["tools", c, tool, "metadata.json"]).dropLast.dropLast.getLastD "" = c) := by
  refine ⟨extractSoftwareType_no_anchor, extractSoftwareType_anchor_last,
    extractSoftwareType_anchor, ?_⟩
  intro pre c tool h
  constructor
  · exact extractSoftwareType_anchor pre c [tool, "metadata.json"] h
  · have e1 : pre ++ ["tools", c, tool, "metadata.json"] =
        (pre ++ ["tools", c, tool]) ++ ["metadata.json"] := by simp
    have e2 : pre ++ ["tools", c, tool] = (pre ++ ["tools", c]) ++ [tool] := by simp
    have e3 : pre ++ ["tools", c] = (pre ++ ["tools"]) ++ [c] := by simp
    rw [e1, List.dropLast_concat, e2, List.dropLast_concat, e3, List.getLastD_concat]

/-- Witness for C9: concrete paths for each conjunct — no anchor, anchor
last, segment after the anchor, and the regular four-segment shape where
the parent-of-parent name coincides. -/
theorem c9_witness :
    extractSoftwareType ["repo", "scripts"] = .error "Invalid tool path structure" ∧
    extractSoftwareType (["repo"] ++ ["tools"]) = .error "Invalid tool path structure" ∧
    extractSoftwareType (["repo"] ++ "tools" :: "blender" :: ["a", "metadata.json"]) =
      .ok "blender" ∧
    (extractSoftwareType (["repo"] ++ ["tools", "blender", "a", "metadata.json"]) =
      .ok "blender" ∧
     (["repo"] ++ ["tools", "blender", "a", "metadata.json"]).dropLast.dropLast.getLastD ""
       = "blender") :=
  ⟨c9_theorem.1 ["repo", "scripts"] (by decide),
   c9_theorem.2.1 ["repo"] (by decide),
   c9_theorem.2.2.1 ["repo"] "blender" ["a", "metadata.json"] (by decide),
   c9_theorem.2.2.2 ["repo"] "blender" "a" (by decide)⟩

/-- Counterexample to C9 as stated: for the shallow descriptor path
`tools/blender/metadata.json` the derived category is `blender` while the
parent-of-parent directory name is `tools` — the coincidence claimed for
every descriptor path fails. -/
theorem c9_counterexample :
    extractSoftwareType ["tools", "blender", "metadata.json"] = .ok "blender" ∧
    (["tools", "blender", "metadata.json"] : FsPath).dropLast.dropLast.getLastD "" = "tools" ∧
    ("blender" : String) ≠ "tools" :=
  ⟨by rfl, by rfl, by decide⟩

/-- A successful by-name resolution names an entry of the listing. -/
theorem lookupEntry_mem : ∀ (es : FSEntries) (n : String) (e : FSEntry),
    lookupEntry es n = some e → (n, e) ∈ es.toList
  | .nil, _, _, h => by simp [lookupEntry] at h
  | .cons n1 e1 rest, n, e, h => by
    unfold lookupEntry at h
    by_cases hn : n1 = n
    · rw [if_pos hn] at h
      simp only [Option.some.injEq] at h
      subst hn h
      simp [FSEntries.toList]
    · rw [if_neg hn] at h
      exact List.mem_cons_of_mem _ (lookupEntry_mem rest n e h)

/-- The scanner reports a regular file named `metadata.json` that sits in
the listed directory. -/
theorem findInDir_mem_of_file : ∀ (es : FSEntries) (cur : FsPath) (d : FileData),
    ("metadata.json", FSEntry.file d) ∈ es.toList →
    cur ++ ["metadata.json"] ∈ findInDir es cur
  | .nil, _, _, h => absurd h (by simp [FSEntries.toList])
  | .cons n e rest, cur, d, h => by
    have h2 : ("metadata.json" = n ∧ FSEntry.file d = e) ∨
        ("metadata.json", FSEntry.file d) ∈ rest.toList := by
      simpa [FSEntries.toList] using h
    rcases h2 with ⟨hn, he⟩ | hmem
    · subst hn
      rw [← he]
      unfold findInDir
      simp
    · cases e with
      | file d2 =>
        unfold findInDir
        exact List.mem_append_right _ (findInDir_mem_of_file rest cur d hmem)
      | dir es2 =>
        unfold findInDir
        exact List.mem_append_right _ (findInDir_mem_of_file rest cur d hmem)

/-- The scanner recurses into every listed subdirectory: results found
below a subdirectory entry are results of the whole listing. -/
theorem findInDir_mem_of_subdir : ∀ (es : FSEntries) (cur : FsPath) (n : String)
    (es2 : FSEntries) (q : FsPath),
    (n, FSEntry.dir es2) ∈ es.toList → q ∈ findInDir es2 (cur ++ [n]) →
    q ∈ findInDir es cur
  | .nil, _, _, _, _, h, _ => absurd h (by simp [FSEntries.toList])
  | .cons n1 e rest, cur, n, es2, q, h, hq => by
    have h2 : (n = n1 ∧ FSEntry.dir es2 = e) ∨ (n, FSEntry.dir es2) ∈ rest.toList := by
      simpa [FSEntries.toList] using h
    rcases h2 with ⟨hn, he⟩ | hmem
    · subst hn
      rw [← he]
      unfold findInDir
      exact List.mem_append_left _ hq
    · cases e with
      | file d2 =>
        unfold findInDir
        exact List.mem_append_right _ (findInDir_mem_of_subdir rest cur n es2 q hmem hq)
      | dir es3 =>
        unfold findInDir
        exact List.mem_append_right _ (findInDir_mem_of_subdir rest cur n es2 q hmem hq)

/-- C10 (confirmed): the scanner matches `metadata.json` with no depth
validation — a `metadata.json` directly inside a category directory is
discovered, its derived category and folder name both equal the category
directory's name, and the main-file check looks inside the category
directory itself. -/
theorem c10_theorem :
    ∀ (fs : FSEntry) (cwd : FsPath) (cat : String) (es catEs : FSEntries) (d : FileData),
      "tools" ∉ cwd →
      fs.lookup (cwd ++ ["tools"]) = some (.dir es) →
      lookupEntry es cat = some (.dir catEs) →
      lookupEntry catEs "metadata.json" = some (.file d) →
      (∃ files, findMetadataFiles fs (cwd ++ ["tools"]) = .ok files ∧
        (cwd ++ ["tools", cat, "metadata.json"]) ∈ files) ∧
      extractSoftwareType (cwd ++ ["tools", cat, "metadata.json"]) = .ok cat ∧
      extractToolName (cwd ++ ["tools", cat, "metadata.json"]) = cat ∧
      verifyMainToolFile fs (cwd ++ ["tools", cat, "metadata.json"]) cat =
        existsSync fs ((cwd ++ ["tools", cat]) ++ [getMainFileName cat]) := by
  intro fs cwd cat es catEs d hcwd hroot hcat hmeta
  have e1 : cwd ++ ["tools", cat, "metadata.json"] =
      (cwd ++ ["tools", cat]) ++ ["metadata.json"] := by simp
  have e2 : cwd ++ ["tools", cat] = (cwd ++ ["tools"]) ++ [cat] := by simp
  refine ⟨⟨findInDir es (cwd ++ ["tools"]), ?_, ?_⟩, ?_, ?_, ?_⟩
  · unfold findMetadataFiles
    rw [hroot]
  · have h1 : ((cwd ++ ["tools"]) ++ [cat]) ++ ["metadata.json"] ∈
        findInDir catEs ((cwd ++ ["tools"]) ++ [cat]) :=
      findInDir_mem_of_file catEs _ d (lookupEntry_mem _ _ _ hmeta)
    have h2 := findInDir_mem_of_subdir es (cwd ++ ["tools"]) cat catEs _
      (lookupEntry_mem _ _ _ hcat) h1
    rw [e1, e2]
    exact h2
  · exact extractSoftwareType_anchor cwd cat ["metadata.json"] hcwd
  · unfold extractToolName
    rw [e1, List.dropLast_concat, e2, List.getLastD_concat]
  · unfold verifyMainToolFile
    dsimp only []
    rw [e1, List.dropLast_concat]

/-- Witness for C10: in `fsShallow` the descriptor sits directly inside
`tools/blender/`; the scanner finds it, category and folder derive to
`blender`, the main-file check looks inside `tools/blender/`, and the tool
is in fact processed with folder `blender`. -/
theorem c10_witness :
    ((∃ files, findMetadataFiles fsShallow ([] ++ ["tools"]) = .ok files ∧
        ([] ++ ["tools", "blender", "metadata.json"]) ∈ files) ∧
      extractSoftwareType ([] ++ ["tools", "blender", "metadata.json"]) = .ok "blender" ∧
      extractToolName ([] ++ ["tools", "blender", "metadata.json"]) = "blender" ∧
      verifyMainToolFile fsShallow ([] ++ ["tools", "blender", "metadata.json"]) "blender" =
        existsSync fsShallow (([] ++ ["tools", "blender"]) ++ [getMainFileName "blender"])) ∧
    (processTool fsShallow gitOut "NOW" ["tools", "blender", "metadata.json"]).result =
      some ({ name := "S", description := "", folder := "blender",
              updated_at := "2024-01-01T00:00:00Z",
              dependencies := none, id := none }, "blender") :=
  ⟨c10_theorem fsShallow [] "blender"
     (FSEntries.ofList [("blender", dirOf [
        ("metadata.json", .file (.meta ⟨some "S", none, none⟩)),
        ("tool.py", .file .invalidJson)])])
     (FSEntries.ofList [
        ("metadata.json", .file (.meta ⟨some "S", none, none⟩)),
        ("tool.py", .file .invalidJson)])
     (.meta ⟨some "S", none, none⟩)
     (by decide) (by rfl) (by rfl) (by rfl),
   by rfl⟩

/-- C4 (confirmed): for every successfully processed tool, `dependencies`
is present iff at least one regular-file entry other than the descriptor
and the resolved main-file name exists in the tool directory, and it then
equals exactly those entry names in directory-listing order. -/
theorem c4_theorem :
    ∀ (fs : FSEntry) (git : GitOracle) (now : String) (p : FsPath) (t : Tool) (st : String),
      (processTool fs git now p).result = some (t, st) →
      ∃ entries, readdirSync fs p.dropLast = .ok entries ∧
        ((t.dependencies = none ↔ entries.filter (fun e =>
            e != "metadata.json" && e != getMainFileName st &&
              isRegularFile fs (p.dropLast ++ [e])) = []) ∧
         (entries.filter (fun e =>
            e != "metadata.json" && e != getMainFileName st &&
              isRegularFile fs (p.dropLast ++ [e])) ≠ [] →
          t.dependencies = some (entries.filter (fun e =>
            e != "metadata.json" && e != getMainFileName st &&
              isRegularFile fs (p.dropLast ++ [e]))))) := by
  intro fs git now p t st h
  obtain ⟨m, deps, hr, hx, hv, hd, ht⟩ := processTool_some_spec fs git now p t st h
  unfold findDependencies at hd
  dsimp only [] at hd
  cases he : readdirSync fs p.dropLast with
  | error e =>
    rw [he] at hd
    exact absurd hd (by simp)
  | ok entries =>
    rw [he] at hd
    simp only [Except.ok.injEq] at hd
    have hfilter : entries.filter (fun entry =>
        if entry = "metadata.json" ∨ entry = getMainFileName st then false
        else isRegularFile fs (p.dropLast ++ [entry]))
      = entries.filter (fun e =>
        e != "metadata.json" && e != getMainFileName st &&
          isRegularFile fs (p.dropLast ++ [e])) := by
      refine List.filter_congr ?_
      intro e _
      by_cases h1 : e = "metadata.json" <;> by_cases h2 : e = getMainFileName st <;>
        simp [h1, h2]
    rw [hfilter] at hd
    refine ⟨entries, rfl, ?_, ?_⟩
    · rw [ht, ← hd]
      cases deps with
      | nil => simp
      | cons d ds => simp
    · intro hne
      rw [ht, ← hd]
      exact if_pos (List.length_pos.mpr hne)

/-- Witness for C4: the `fsGood` tool carries exactly its one extra file as
`dependencies`. -/
theorem c4_witness :
    (processTool fsGood gitOut "NOW" ["tools", "blender", "a", "metadata.json"]).result =
      some (toolGoodA, "blender") ∧
    (∃ entries, readdirSync fsGood (["tools", "blender", "a", "metadata.json"].dropLast)
        = .ok entries ∧
      ((toolGoodA.dependencies = none ↔ entries.filter (fun e =>
          e != "metadata.json" && e != getMainFileName "blender" &&
            isRegularFile fsGood (["tools", "blender", "a", "metadata.json"].dropLast ++ [e])) = []) ∧
       (entries.filter (fun e =>
          e != "metadata.json" && e != getMainFileName "blender" &&
            isRegularFile fsGood (["tools", "blender", "a", "metadata.json"].dropLast ++ [e])) ≠ [] →
        toolGoodA.dependencies = some (entries.filter (fun e =>
          e != "metadata.json" && e != getMainFileName "blender" &&
            isRegularFile fsGood (["tools", "blender", "a", "metadata.json"].dropLast ++ [e])))))) :=
  ⟨by rfl,
   c4_theorem fsGood gitOut "NOW" ["tools", "blender", "a", "metadata.json"]
     toolGoodA "blender" (by rfl)⟩

/-- C5 (confirmed): for a successfully processed tool whose descriptor
supplies `id` as a string, the output `id` is present iff the string is
non-empty and then equals it; an absent descriptor `id` yields no `id`
key. -/
theorem c5_theorem :
    ∀ (fs : FSEntry) (git : GitOracle) (now : String) (p : FsPath) (t : Tool)
      (st : String) (m : Metadata),
      (processTool fs git now p).result = some (t, st) →
      readFileSync fs p = .ok (.meta m) →
      (m.id = none → t.id = none) ∧
      (∀ s, m.id = some s →
        ((s ≠ "" → t.id = some s) ∧ (s = "" → t.id = none))) := by
  intro fs git now p t st m h hr
  obtain ⟨m2, deps, hr2, -, -, -, ht⟩ := processTool_some_spec fs git now p t st h
  rw [hr] at hr2
  simp only [Except.ok.injEq, FileData.meta.injEq] at hr2
  subst hr2
  constructor
  · intro hid
    rw [ht]
    simp [jsTruthy, hid]
  · intro s hid
    constructor
    · intro hs
      rw [ht]
      simp [jsTruthy, hid, hs]
    · intro hs
      rw [ht]
      simp [jsTruthy, hid, hs]

/-- Witness for C5: the `fsGood` descriptor supplies `id = "idA"`, and the
record carries it. -/
theorem c5_witness :
    (processTool fsGood gitOut "NOW" ["tools", "blender", "a", "metadata.json"]).result =
      some (toolGoodA, "blender") ∧
    readFileSync fsGood ["tools", "blender", "a", "metadata.json"] =
      .ok (.meta ⟨some "A", some "desc", some "idA"⟩) ∧
    ("idA" ≠ "" → toolGoodA.id = some "idA") :=
  ⟨by rfl, by rfl,
   ((c5_theorem fsGood gitOut "NOW" ["tools", "blender", "a", "metadata.json"]
      toolGoodA "blender" ⟨some "A", some "desc", some "idA"⟩
      (by rfl) (by rfl)).2 "idA" rfl).1⟩

/-- C6 (amended): for every successfully processed tool, the output `name`
equals the descriptor's `name` whenever a *non-empty* string is supplied,
and falls back to the folder name when `name` is omitted *or is the empty
string* (the code uses JavaScript `||`, and the empty string is falsy);
`description` equals the supplied string when present and the empty string
when omitted. -/
theorem c6_theorem :
    ∀ (fs : FSEntry) (git : GitOracle) (now : String) (p : FsPath) (t : Tool)
      (st : String) (m : Metadata),
      (processTool fs git now p).result = some (t, st) →
      readFileSync fs p = .ok (.meta m) →
      (∀ s, m.name = some s → s ≠ "" → t.name = s) ∧
      ((m.name = none ∨ m.name = some "") → t.name = extractToolName p) ∧
      (∀ s, m.description = some s → t.description = s) ∧
      (m.description = none → t.description = "") := by
  intro fs git now p t st m h hr
  obtain ⟨m2, deps, hr2, -, -, -, ht⟩ := processTool_some_spec fs git now p t st h
  rw [hr] at hr2
  simp only [Except.ok.injEq, FileData.meta.injEq] at hr2
  subst hr2
  refine ⟨?_, ?_, ?_, ?_⟩
  · intro s hs hne
    rw [ht]
    simp [jsOrElse, hs, hne]
  · intro hcase
    rcases hcase with hn | hn <;> rw [ht] <;> simp [jsOrElse, hn]
  · intro s hs
    rw [ht]
    by_cases he : s = "" <;> simp [jsOrElse, hs, he]
  · intro hd
    rw [ht]
    simp [jsOrElse, hd]

/-- Witness for C6: the `fsGood` descriptor supplies name `"A"` and
description `"desc"`, which the record carries verbatim. -/
theorem c6_witness :
    (processTool fsGood gitOut "NOW" ["tools", "blender", "a", "metadata.json"]).result =
      some (toolGoodA, "blender") ∧
    ("A" ≠ "" → toolGoodA.name = "A") ∧ toolGoodA.description = "desc" :=
  ⟨by rfl,
   (c6_theorem fsGood gitOut "NOW" ["tools", "blender", "a", "metadata.json"]
      toolGoodA "blender" ⟨some "A", some "desc", some "idA"⟩ (by rfl) (by rfl)).1 "A" rfl,
   ((c6_theorem fsGood gitOut "NOW" ["tools", "blender", "a", "metadata.json"]
      toolGoodA "blender" ⟨some "A", some "desc", some "idA"⟩ (by rfl) (by rfl)).2.2.1) "desc" rfl⟩

/-- Counterexample to C6 as stated: a descriptor that supplies `name` as
the empty string — the record's `name` is the folder name `"a"`, not the
supplied `""`, because `metadata.name || toolName` treats `""` as falsy. -/
theorem c6_counterexample :
    readFileSync fsEmptyName ["tools", "blender", "a", "metadata.json"] =
      .ok (.meta ⟨some "", none, none⟩) ∧
    (processTool fsEmptyName gitOut "NOW" ["tools", "blender", "a", "metadata.json"]).result =
      some ({ name := "a", description := "", folder := "a",
              updated_at := "2024-01-01T00:00:00Z",
              dependencies := none, id := none }, "blender") ∧
    ("a" : String) ≠ "" :=
  ⟨by rfl, by rfl, by decide⟩
